import Mathlib

/-!
Verification of the document-transformation server (mcp-doc-forge).

The development shallowly embeds the core of the repository:
the PDF page engine (`mergePDFs`, `splitPDF` from `src/tools/pdfTools.ts`),
the text partition engine (`splitText`, `formatText`, `compareTexts` from
`src/tools/txtTools.ts`), the document reader and the DOCX converter, and the
tool dispatcher (`index.ts`).  File I/O is abstracted into explicit
environments (`Except`-valued load/read functions); the files a handler writes
are returned explicitly.  Machine strings are modelled as `String` / `List
Char`; JS dynamic values reaching the dispatcher are modelled by a small
`JsValue` type.
-/

namespace DocForge

/-- The uniform operation result envelope.  The JS handlers return either
`{success: true, data}` or `{success: false, error}`; both optional fields
are modelled explicitly so that the "exactly one of data/error" invariant is
a genuine theorem, not a typing artifact. -/
structure OpResult where
  success : Bool
  data : Option String
  error : Option String
deriving DecidableEq, Repr

/-- Smart constructor for a successful result, as built by the handlers. -/
def mkOk (d : String) : OpResult := ⟨true, some d, none⟩

/-- Smart constructor for a failed result, as built by the catch blocks. -/
def mkErr (e : String) : OpResult := ⟨false, none, some e⟩

/-- The envelope invariant claimed by the spec: `data` is populated exactly
when `success` holds and `error` exactly when it does not. -/
def OpResult.wellFormed (r : OpResult) : Prop :=
  r.data.isSome = r.success ∧ r.error.isSome = !r.success

/-! ## PDF page engine (`src/tools/pdfTools.ts`)

A loaded PDF document is abstracted to its list of pages; pages themselves
are opaque (`α`).  `PDFDocument.load` composed with `fs.readFile` becomes an
environment function `String → Except String (List α)` (the `.error` case is
the thrown read/parse error caught by the handler). -/

/-- A page range as supplied to `pdf_splitter`: 1-based inclusive bounds.
The source field `end` is called `stop` here (`end` is reserved in Lean);
JS numbers can be non-positive, hence `Int`. -/
structure PageRange where
  start : Int
  stop : Int
deriving DecidableEq, Repr

/-- Embedding of `pdf-lib`'s `copyPages(pdf, indexes)`: look up each index in
the source page list; any index outside `[0, pageCount)` makes the library
throw (`srcPages[idx]` is `undefined`), modelled as `none`. -/
def copyPages {α : Type} (pages : List α) : List Int → Option (List α)
  | [] => some []
  | i :: is =>
    if 0 ≤ i then
      match pages.get? i.toNat, copyPages pages is with
      | some p, some ps => some (p :: ps)
      | _, _ => none
    else none

/-- The 0-based index sequence `splitPDF` builds for a range:
`Array.from({length: end - start + 1}, (_, i) => start - 1 + i)`. -/
def pageIndexes (r : PageRange) : List Int :=
  (List.range (r.stop - r.start + 1).toNat).map (fun k : Nat => r.start - 1 + (k : Int))

/-- Error message thrown for a range exceeding the document
(`start > totalPages || end > totalPages`). -/
def rangeBoundsMsg (r : PageRange) (total : Nat) : String :=
  "Invalid page range: " ++ toString r.start ++ "-" ++ toString r.stop ++
    ". PDF only has " ++ toString total ++ " pages"

/-- Error message thrown for a misordered range (`start > end`). -/
def rangeOrderMsg (r : PageRange) : String :=
  "Invalid page range: start (" ++ toString r.start ++
    ") is greater than end (" ++ toString r.stop ++ ")"

/-- The TypeError raised inside `pdf-lib` when `copyPages` is handed an
out-of-bounds index (`srcPages[idx]` is `undefined` and `.node` is read). -/
def copyErrMsg : String := "Cannot read properties of undefined (reading \x27node\x27)"

/-- The loop body of `splitPDF` (source lines 167-208): for each range in
order, validate against the total page count, copy the 0-based index
sequence into a fresh document and write it out as file number `i + 1`.
`written` accumulates the files already persisted by earlier iterations;
on a thrown error they remain on disk and are returned alongside the failed
result. -/
def splitGo {α : Type} (pages : List α) :
    List PageRange → Nat → List (Nat × List α) → OpResult × List (Nat × List α)
  | [], _, written =>
    (mkOk ("Successfully split PDF into " ++ toString written.length ++ " files"), written)
  | r :: rest, i, written =>
    if r.start > (pages.length : Int) ∨ r.stop > (pages.length : Int) then
      (mkErr (rangeBoundsMsg r pages.length), written)
    else if r.start > r.stop then
      (mkErr (rangeOrderMsg r), written)
    else
      match copyPages pages (pageIndexes r) with
      | none => (mkErr copyErrMsg, written)
      | some doc => splitGo pages rest (i + 1) (written ++ [(i + 1, doc)])

/-- Embedding of `splitPDF` applied to an already loaded document: returns
the operation result together with the split files actually written
(1-based numeric suffix paired with the page content of the file). -/
def splitPDF {α : Type} (pages : List α) (ranges : List PageRange) :
    OpResult × List (Nat × List α) :=
  splitGo pages ranges 0 []

/-- A range passes `splitPDF`'s validation iff it fails both thrown checks:
this is the predicate actually tested by the source, with no lower bound. -/
def passesValidation (r : PageRange) (total : Nat) : Prop :=
  ¬(r.start > (total : Int) ∨ r.stop > (total : Int)) ∧ ¬(r.start > r.stop)

instance (r : PageRange) (total : Nat) : Decidable (passesValidation r total) :=
  inferInstanceAs (Decidable (_ ∧ _))

/-- Full validity of a range in the sense of the spec invariant. -/
def validRange (r : PageRange) (total : Nat) : Prop :=
  1 ≤ r.start ∧ r.start ≤ r.stop ∧ r.stop ≤ (total : Int)

instance (r : PageRange) (total : Nat) : Decidable (validRange r total) :=
  inferInstanceAs (Decidable (_ ∧ _))

/-- The contiguous slice of source pages a valid range denotes. -/
def rangeSlice {α : Type} (pages : List α) (r : PageRange) : List α :=
  (pages.drop (r.start - 1).toNat).take (r.stop - r.start + 1).toNat

/-- The loop body of `mergePDFs`: load each source in order and append all of
its pages to the accumulating output document; a failing load aborts. -/
def mergeGo {α : Type} (loadPdf : String → Except String (List α)) :
    List String → List α → Except String (List α)
  | [], acc => .ok acc
  | p :: rest, acc =>
    match loadPdf p with
    | .error e => .error e
    | .ok doc => mergeGo loadPdf rest (acc ++ doc)

/-- Embedding of `mergePDFs` (source lines 65-131).  `inputPaths` is the
dispatcher's unchecked cast: `none` models the `undefined` field, on which
the `for...of` loop throws a TypeError caught by the handler.  The single
merged file is written only after every source has been processed, so the
written list is empty on any failure. -/
def mergePDFs {α : Type} (loadPdf : String → Except String (List α))
    (inputPaths : Option (List String)) : OpResult × List (List α) :=
  match inputPaths with
  | none => (mkErr "inputPaths is not iterable", [])
  | some paths =>
    match mergeGo loadPdf paths [] with
    | .error e => (mkErr e, [])
    | .ok merged =>
      (mkOk ("Successfully merged " ++ toString paths.length ++ " PDFs"), [merged])

/-! ## Text partition engine (`src/tools/txtTools.ts`)

Text is manipulated at the `List Char` level so that the JS string
primitives (`split`, `trim`, `join`) can be embedded exactly. -/

/-- Embedding of `String.prototype.split(delim)` for a nonempty literal
delimiter: greedy left-to-right scan for non-overlapping occurrences.
The `d = []` guard in the branch only serves totality; the `jsSplit`
wrapper treats the empty separator separately, as JS does. -/
def splitChars (d : List Char) : List Char → List (List Char)
  | [] => [[]]
  | c :: rest =>
    if d ≠ [] ∧ d.isPrefixOf (c :: rest) then
      [] :: splitChars d (rest.drop (d.length - 1))
    else
      match splitChars d rest with
      | [] => [[c]]
      | f :: fs => (c :: f) :: fs
termination_by s => s.length
decreasing_by
  all_goals simp only [List.length_cons, List.length_drop]
  all_goals omega

/-- Number of non-overlapping occurrences of `d`, by the same greedy scan. -/
def countOccs (d : List Char) : List Char → Nat
  | [] => 0
  | c :: rest =>
    if d ≠ [] ∧ d.isPrefixOf (c :: rest) then
      countOccs d (rest.drop (d.length - 1)) + 1
    else countOccs d rest
termination_by s => s.length
decreasing_by
  all_goals simp only [List.length_cons, List.length_drop]
  all_goals omega

/-- Embedding of JS `s.split(d)`: the empty separator splits into single
code units, any other separator uses the greedy scan. -/
def jsSplit (s d : String) : List String :=
  if d = "" then s.data.map (fun c => String.mk [c])
  else (splitChars d.data s.data).map String.mk

/-- Embedding of `Array.prototype.join(sep)`. -/
def joinSep (sep : List Char) : List (List Char) → List Char
  | [] => []
  | x :: xs =>
    match xs with
    | [] => x
    | _ :: _ => x ++ sep ++ joinSep sep xs

/-- Embedding of JS `String.prototype.trim()`: strip whitespace from both
ends. -/
def jsTrim (s : List Char) : List Char :=
  ((s.dropWhile Char.isWhitespace).reverse.dropWhile Char.isWhitespace).reverse

/-- Embedding of `parseInt(value, 10)` restricted to its defined outcomes:
optional sign and leading decimal digits after trimming; `none` is `NaN`. -/
def parseIntJS (s : String) : Option Int :=
  let cs := s.data.dropWhile Char.isWhitespace
  let signAndDigits : Int × List Char :=
    match cs with
    | '-' :: rest => (-1, rest)
    | '+' :: rest => (1, rest)
    | _ => (1, cs)
  let ds := signAndDigits.2.takeWhile Char.isDigit
  if ds = [] then none
  else some (signAndDigits.1 * (ds.foldl (fun a c => a * 10 + (c.toNat - 48)) 0 : Nat))

/-- The chunking loop of `splitText` with `splitBy = "lines"`:
`for (let i = 0; i < lines.length; i += lineCount)` pushing
`lines.slice(i, i + lineCount)`.  The `n = 0` case never arises (the source
validates `lineCount > 0`; with `0` the JS loop would not terminate). -/
def chunkList (n : Nat) (xs : List String) : List (List String) :=
  if xs = [] then []
  else if n = 0 then []
  else xs.take n :: chunkList n (xs.drop n)
termination_by xs.length
decreasing_by
  rename_i hxs hn
  have h1 : 0 < n := Nat.pos_of_ne_zero hn
  have h2 : 0 < xs.length := List.length_pos.mpr hxs
  simpa [List.length_drop] using Nat.sub_lt h2 h1

/-- The pure partitioning core of `splitText` (source lines 563-575):
line-count chunks joined back with newlines, or a delimiter split.  The
`Option` arguments model fields absent from the argument bag: a missing
`value` makes `parseInt(undefined)` return `NaN`, and `content.split(undefined)`
returns the whole content as a single fragment. -/
def splitTextParts (content : String) (splitBy : Option String)
    (value : Option String) : Except String (List String) :=
  if splitBy = some "lines" then
    match parseIntJS (value.getD "undefined") with
    | none => .error "Invalid line count"
    | some k =>
      if k ≤ 0 then .error "Invalid line count"
      else .ok ((chunkList k.toNat (jsSplit content "\n")).map
        (fun c => String.intercalate "\n" c))
  else
    match value with
    | none => .ok [content]
    | some v => .ok (jsSplit content v)

/-! ### Text formatter (`formatText`, source lines 458-468) -/

/-- The filter step of `formatText`:
`filter((line, index, array) => !(line === "" && array[index - 1] === ""))`.
Each element is paired with its predecessor in the mapped array
(`array[-1]` is `undefined`, modelled as `none`), and dropped exactly when
both it and its predecessor are empty. -/
def collapseAux (prev : Option (List Char)) : List (List Char) → List (List Char)
  | [] => []
  | a :: l =>
    if a = [] ∧ prev = some [] then collapseAux (some a) l
    else a :: collapseAux (some a) l

/-- The pure core of `formatText`: split on newlines, trim every line, drop
empty lines whose predecessor (in the trimmed array) is also empty, and
rejoin with newlines. -/
def formatTextCore (content : List Char) : List Char :=
  joinSep ['\n'] (collapseAux none ((splitChars ['\n'] content).map jsTrim))

/-! ### Text diff (`compareTexts`, source lines 485-533)

The classification itself comes from the external `diff` npm library
(`diffLines`); only the prefix rendering is repository code. -/

/-- Classification of a diff run. -/
inductive DiffKind
  | unchanged
  | added
  | removed
deriving DecidableEq, Repr

/-- One change object produced by the diff engine: a classified run of
lines; `value` is the concatenated text of the run (line terminators
included, as the library keeps them). -/
structure DiffPart where
  kind : DiffKind
  value : List Char
deriving DecidableEq, Repr

/-- Modelled from the spec: the `diff` library's line tokenizer, absent from
the repository.  The text is cut after every newline, each token keeping its
terminator; a trailing segment without a newline is its own token. -/
def lineTokens : List Char → List (List Char)
  | [] => []
  | c :: rest =>
    if c = '\n' then [c] :: lineTokens rest
    else
      match lineTokens rest with
      | [] => [[c]]
      | t :: ts => (c :: t) :: ts

/-- Modelled from the spec: a longest common subsequence of two token
lists, the "line-based longest-common-subsequence-style grouping" the spec
prescribes for the external diff engine. -/
def lcs {β : Type} [DecidableEq β] : List β → List β → List β
  | [], _ => []
  | _, [] => []
  | a :: as, b :: bs =>
    if a = b then a :: lcs as bs
    else
      let l1 := lcs (a :: as) bs
      let l2 := lcs as (b :: bs)
      if l1.length ≥ l2.length then l1 else l2
termination_by as bs => as.length + bs.length
decreasing_by
  all_goals simp only [List.length_cons]
  all_goals omega

/-- Modelled from the spec: walk the two token lists against a common
subsequence, marking every token unchanged, removed (only in the first
input) or added (only in the second); at a replacement point the removed
token is emitted before the added one. -/
def markDiff {β : Type} [DecidableEq β] : List β → List β → List β → List (DiffKind × β)
  | c :: cs, o :: os, n :: ns =>
    if o = c then
      if n = c then (DiffKind.unchanged, c) :: markDiff cs os ns
      else (DiffKind.added, n) :: markDiff (c :: cs) (o :: os) ns
    else (DiffKind.removed, o) :: markDiff (c :: cs) os (n :: ns)
  | c :: cs, o :: os, [] => (DiffKind.removed, o) :: markDiff (c :: cs) os []
  | _ :: _, [], ns => ns.map (fun x => (DiffKind.added, x))
  | [], os, ns =>
    os.map (fun x => (DiffKind.removed, x)) ++ ns.map (fun x => (DiffKind.added, x))
termination_by _ os ns => os.length + ns.length
decreasing_by
  all_goals simp only [List.length_cons]
  all_goals omega

/-- Group consecutive equally-classified tokens into maximal runs,
concatenating their text, as the diff library's change objects do. -/
def groupRuns : List (DiffKind × List Char) → List DiffPart
  | [] => []
  | (k, v) :: rest =>
    match groupRuns rest with
    | [] => [⟨k, v⟩]
    | p :: ps => if p.kind = k then ⟨k, v ++ p.value⟩ :: ps else ⟨k, v⟩ :: p :: ps

/-- Modelled from the spec: `diffLines` of the external `diff` library —
line-level classification of the two texts into maximal unchanged / added /
removed runs in original line order. -/
def diffLines (t1 t2 : List Char) : List DiffPart :=
  groupRuns (markDiff (lcs (lineTokens t1) (lineTokens t2))
    (lineTokens t1) (lineTokens t2))

/-- The run prefix chosen by `compareTexts`:
`part.added ? "+ " : part.removed ? "- " : "  "`. -/
def markFor : DiffKind → List Char
  | DiffKind.added => ['+', ' ']
  | DiffKind.removed => ['-', ' ']
  | DiffKind.unchanged => [' ', ' ']

/-- The pure core of `compareTexts` (source lines 510-516): every run is
rendered as its prefix followed by its text, and the renderings are joined
with no separator. -/
def compareTextsCore (t1 t2 : List Char) : List Char :=
  ((diffLines t1 t2).map (fun part => markFor part.kind ++ part.value)).flatten

/-! ## Document reader and DOCX converter -/

/-- Embedding of Node's `path.extname(p).toLowerCase()`: the suffix of the
basename from its last dot, empty when the basename has no dot or only a
leading one. -/
def extname (p : String) : String :=
  let base := (splitChars ['/'] p.data).getLastD []
  match (base.reverse.takeWhile (fun c => c ≠ '.')), base.reverse.dropWhile (fun c => c ≠ '.') with
  | _, [] => ""
  | _, ['.'] => ""
  | revExt, '.' :: _ => String.mk (('.' :: revExt.reverse).map Char.toLower)
  | _, _ => ""

/-- The collaborator capabilities a call can invoke, abstracted as explicit
functions: `Except`-valued ones model fallible reads/parses (the `.error`
message is the thrown error's message, caught by the handler). -/
structure Env where
  /-- `fs.readFile` + `PDFDocument.load` on a path, yielding the page list. -/
  loadPdf : String → Except String (List Nat)
  /-- `fs.readFile(path, "utf-8")`. -/
  readText : String → Except String String
  /-- The per-format extraction collaborators used by `document_reader`
  (pdfreader, mammoth, csv-parse, jsdom), keyed by path. -/
  extractDoc : String → Except String String
  /-- `libreoffice-convert` on the bytes read from a path. -/
  convertDocx : String → Except String Unit
  /-- The HTML transformation collaborators (jsdom, turndown, mammoth),
  keyed by operation name and input content; a `.error` is a thrown
  collaborator failure. -/
  transformHtml : String → String → Except String String
  /-- `iconv.decode` composed with `iconv.encode` (from, to, content). -/
  iconv : String → String → String → String

/-- Embedding of `readFile` from `src/tools/documentReader.ts`: dispatch on
the lowercased extension, delegate to the per-format collaborator, and fold
any thrown error into a failed result. -/
def readFile (env : Env) (filePath : String) : OpResult :=
  let ext := extname filePath
  if ext = ".pdf" ∨ ext = ".docx" ∨ ext = ".txt" ∨ ext = ".html" ∨ ext = ".csv" then
    match env.extractDoc filePath with
    | .ok content => mkOk content
    | .error e => mkErr e
  else mkErr ("Unsupported file format: " ++ ext)

/-- Embedding of `convertDocxToPdf` from `src/tools/docxTools.ts` (lines
112-137): extension checks on both paths, then read and collaborator
conversion, each thrown error caught into a failed result. -/
def convertDocxToPdf (env : Env) (inputPath outputPath : String) : OpResult :=
  if extname inputPath ≠ ".docx" then mkErr "Input file must be a .docx file"
  else if extname outputPath ≠ ".pdf" then mkErr "Output file must have .pdf extension"
  else
    match env.convertDocx inputPath with
    | .error e => mkErr e
    | .ok _ => mkOk ("Successfully converted " ++ inputPath ++ " to " ++ outputPath)

/-! ## Handler layer

Each handler mirrors the corresponding `async function`: ensure the output
directory, read its inputs, run the engine or collaborator, write the
outputs, all inside one `try/catch` folding any thrown error into a failed
result.  `Option String` arguments model fields the dispatcher cast out of
the argument bag without validation (`none` is `undefined`). -/

/-- The TypeError Node throws when a filesystem call receives `undefined`
instead of a path (via `fs.readFile` / `fs.mkdir`), caught by the handler. -/
def pathTypeErrMsg : String :=
  "The \"path\" argument must be of type string or an instance of Buffer or URL. Received undefined"

/-- The TypeError thrown by `for (const p of undefined)` in `mergePDFs`. -/
def mergePDFsHandler (env : Env) (inputPaths : Option (List String))
    (outputDir : Option String) : OpResult × List (List Nat) :=
  match outputDir with
  | none => (mkErr pathTypeErrMsg, [])
  | some _ => mergePDFs env.loadPdf inputPaths

/-- `splitPDF` as invoked by the dispatcher: directory guarantee, input
read/parse, then the range loop; a missing `pageRanges` field makes the
loop condition read `undefined.length` and throw. -/
def splitPDFHandler (env : Env) (inputPath outputDir : Option String)
    (pageRanges : Option (List PageRange)) : OpResult × List (Nat × List Nat) :=
  match outputDir with
  | none => (mkErr pathTypeErrMsg, [])
  | some _ =>
    match inputPath with
    | none => (mkErr pathTypeErrMsg, [])
    | some ip =>
      match env.loadPdf ip with
      | .error e => (mkErr e, [])
      | .ok pages =>
        match pageRanges with
        | none => (mkErr "Cannot read properties of undefined (reading \x27length\x27)", [])
        | some ranges => splitPDF pages ranges

/-- The shared shape of the single-file transformation handlers
(`docxToHtml`, `cleanHtml`, `htmlToText`, `htmlToMarkdown`,
`extractHtmlResources`, `formatHtml`): output directory, utf-8 read,
collaborator transform, one written file. -/
def fileTransformHandler (env : Env) (op : String) (okMsg : String)
    (inputPath outputDir : Option String) : OpResult :=
  match outputDir with
  | none => mkErr pathTypeErrMsg
  | some _ =>
    match inputPath with
    | none => mkErr pathTypeErrMsg
    | some ip =>
      match env.readText ip with
      | .error e => mkErr e
      | .ok content =>
        match env.transformHtml op content with
        | .error e => mkErr e
        | .ok _ => mkOk okMsg

/-- `convertTextEncoding` (source lines 395-438): byte read, iconv decode
and re-encode, one written file. -/
def convertTextEncodingHandler (env : Env)
    (inputPath outputDir fromEncoding toEncoding : Option String) : OpResult :=
  match outputDir with
  | none => mkErr pathTypeErrMsg
  | some od =>
    match inputPath with
    | none => mkErr pathTypeErrMsg
    | some ip =>
      match env.readText ip with
      | .error e => mkErr e
      | .ok content =>
        let _converted := env.iconv (fromEncoding.getD "undefined")
          (toEncoding.getD "undefined") content
        mkOk ("Successfully converted text encoding: " ++ od)

/-- `formatText` (source lines 441-482): trim every line, collapse runs of
blank lines, write the single formatted file. -/
def formatTextHandler (env : Env) (inputPath outputDir : Option String) :
    OpResult × List String :=
  match outputDir with
  | none => (mkErr pathTypeErrMsg, [])
  | some _ =>
    match inputPath with
    | none => (mkErr pathTypeErrMsg, [])
    | some ip =>
      match env.readText ip with
      | .error e => (mkErr e, [])
      | .ok content =>
        let formatted := String.mk (formatTextCore content.data)
        (mkOk ("Successfully formatted text: formatted.txt"), [formatted])

/-- `compareTexts` (source lines 485-533): read both files, render the
classified diff runs, write the single report file. -/
def compareTextsHandler (env : Env) (file1Path file2Path outputDir : Option String) :
    OpResult × List String :=
  match outputDir with
  | none => (mkErr pathTypeErrMsg, [])
  | some _ =>
    match file1Path with
    | none => (mkErr pathTypeErrMsg, [])
    | some p1 =>
      match env.readText p1 with
      | .error e => (mkErr e, [])
      | .ok t1 =>
        match file2Path with
        | none => (mkErr pathTypeErrMsg, [])
        | some p2 =>
          match env.readText p2 with
          | .error e => (mkErr e, [])
          | .ok t2 =>
            let diffResult := String.mk (compareTextsCore t1.data t2.data)
            (mkOk ("Successfully compared texts: diff.txt"), [diffResult])

/-- `splitText` (source lines 536-598): read the input, partition it, write
one numbered file per fragment; the written fragments are returned. -/
def splitTextHandler (env : Env) (inputPath outputDir splitBy value : Option String) :
    OpResult × List String :=
  match outputDir with
  | none => (mkErr pathTypeErrMsg, [])
  | some _ =>
    match inputPath with
    | none => (mkErr pathTypeErrMsg, [])
    | some ip =>
      match env.readText ip with
      | .error e => (mkErr e, [])
      | .ok content =>
        match splitTextParts content splitBy value with
        | .error e => (mkErr e, [])
        | .ok parts =>
          (mkOk ("Successfully split text into " ++ toString parts.length ++ " parts"),
            parts)

/-! ## Dispatcher (`src/index.ts`)

The argument bag is an untyped field map; `JsValue` covers the value shapes
the handlers can receive.  The response mirrors
`{content: [{type: "text", text}], isError}`, flattened to the text and the
flag. -/

/-- A dynamic argument value. -/
inductive JsValue
  | jstr (s : String)
  | jstrs (xs : List String)
  | jranges (rs : List PageRange)
deriving DecidableEq, Repr

/-- An argument bag: field name to value, no validation at construction. -/
abbrev ArgBag := List (String × JsValue)

/-- Field lookup in the argument bag. -/
def getArg (args : ArgBag) (k : String) : Option JsValue :=
  (args.find? (fun p => p.1 == k)).map (fun p => p.2)

/-- The unchecked cast `args as {field: string}`: a present string field
survives, anything else is `undefined` at use sites. -/
def getStr (args : ArgBag) (k : String) : Option String :=
  match getArg args k with
  | some (JsValue.jstr s) => some s
  | _ => none

/-- The unchecked cast of a string-array field. -/
def getStrs (args : ArgBag) (k : String) : Option (List String) :=
  match getArg args k with
  | some (JsValue.jstrs xs) => some xs
  | _ => none

/-- The unchecked cast of the `pageRanges` field. -/
def getRanges (args : ArgBag) (k : String) : Option (List PageRange) :=
  match getArg args k with
  | some (JsValue.jranges rs) => some rs
  | _ => none

/-- Embedding of `isFileReaderArgs`: the bag has a string `filePath`. -/
def isFileReaderArgs (args : ArgBag) : Bool :=
  match getArg args "filePath" with
  | some (JsValue.jstr _) => true
  | _ => false

/-- Embedding of `isDocxToPdfArgs`: string `inputPath` and `outputPath`. -/
def isDocxToPdfArgs (args : ArgBag) : Bool :=
  match getArg args "inputPath", getArg args "outputPath" with
  | some (JsValue.jstr _), some (JsValue.jstr _) => true
  | _, _ => false

/-- The dispatcher's response: the text content and the error flag. -/
structure ToolResponse where
  text : String
  isError : Bool
deriving DecidableEq, Repr

/-- Fold a handler's result into the dispatcher's response: failures become
`Error: <message>`; the file-producing branches wrap the success data in
the download-note template, which is irrelevant here and kept abstract by
reproducing only the data. -/
def respond (r : OpResult) : ToolResponse :=
  if r.success then ⟨r.data.getD "", false⟩
  else ⟨"Error: " ++ r.error.getD "", true⟩

/-- Embedding of the `CallToolRequestSchema` handler (`src/index.ts` lines
48-336): name dispatch over the fixed catalog; only `document_reader` and
`docx_to_pdf` run an argument-shape predicate, whose failure is thrown and
caught by the surrounding `try/catch` as `Error: Invalid arguments for
<name>`; every other branch casts the bag without validation.  An unknown
name falls through to `Unknown tool: <name>`. -/
def dispatch (env : Env) (name : String) (args : ArgBag) : ToolResponse :=
    if name = "document_reader" then
      if !isFileReaderArgs args then
        ⟨"Error: Invalid arguments for document_reader", true⟩
      else respond (readFile env ((getStr args "filePath").getD ""))
    else if name = "docx_to_pdf" then
      if !isDocxToPdfArgs args then
        ⟨"Error: Invalid arguments for docx_to_pdf", true⟩
      else respond (convertDocxToPdf env ((getStr args "inputPath").getD "")
        ((getStr args "outputPath").getD ""))
    else if name = "pdf_merger" then
      respond (mergePDFsHandler env (getStrs args "inputPaths") (getStr args "outputDir")).1
    else if name = "pdf_splitter" then
      respond (splitPDFHandler env (getStr args "inputPath") (getStr args "outputDir")
        (getRanges args "pageRanges")).1
    else if name = "docx_to_html" then
      respond (fileTransformHandler env "docx_to_html" "Successfully converted DOCX to HTML"
        (getStr args "inputPath") (getStr args "outputDir"))
    else if name = "html_cleaner" then
      respond (fileTransformHandler env "html_cleaner" "Successfully cleaned HTML"
        (getStr args "inputPath") (getStr args "outputDir"))
    else if name = "html_to_text" then
      respond (fileTransformHandler env "html_to_text" "Successfully converted HTML to text"
        (getStr args "inputPath") (getStr args "outputDir"))
    else if name = "html_to_markdown" then
      respond (fileTransformHandler env "html_to_markdown" "Successfully converted HTML to Markdown"
        (getStr args "inputPath") (getStr args "outputDir"))
    else if name = "html_extract_resources" then
      respond (fileTransformHandler env "html_extract_resources" "Successfully extracted resources"
        (getStr args "inputPath") (getStr args "outputDir"))
    else if name = "html_formatter" then
      respond (fileTransformHandler env "html_formatter" "Successfully formatted HTML"
        (getStr args "inputPath") (getStr args "outputDir"))
    else if name = "text_encoding_converter" then
      respond (convertTextEncodingHandler env (getStr args "inputPath")
        (getStr args "outputDir") (getStr args "fromEncoding") (getStr args "toEncoding"))
    else if name = "text_formatter" then
      respond (formatTextHandler env (getStr args "inputPath") (getStr args "outputDir")).1
    else if name = "text_diff" then
      respond (compareTextsHandler env (getStr args "file1Path") (getStr args "file2Path")
        (getStr args "outputDir")).1
    else if name = "text_splitter" then
      respond (splitTextHandler env (getStr args "inputPath") (getStr args "outputDir")
        (getStr args "splitBy") (getStr args "value")).1
    else ⟨"Unknown tool: " ++ name, true⟩

/-- Embedding of the outer guard of the request handler: a request with no
argument bag at all throws `No arguments provided`, caught by the outer
catch; otherwise the name dispatch runs. -/
def callTool (env : Env) (name : String) (args : Option ArgBag) : ToolResponse :=
  match args with
  | none => ⟨"Error: No arguments provided", true⟩
  | some args => dispatch env name args

/-- Substring test used to phrase "the message contains the words
'invalid arguments'". -/
def containsSub (pat s : List Char) : Bool :=
  s.tails.any (fun t => pat.isPrefixOf t)

/-- A concrete collaborator environment used to instantiate universally
quantified theorems: two readable PDFs of 3 and 2 pages, one readable text
file, everything else failing. -/
def sampleEnv : Env where
  loadPdf := fun p =>
    if p = "a.pdf" then .ok [1, 2, 3]
    else if p = "b.pdf" then .ok [4, 5]
    else .error "Failed to parse PDF document"
  readText := fun p =>
    if p = "in.txt" then .ok "alpha\nbeta\ngamma" else .error "ENOENT"
  extractDoc := fun _ => .error "ENOENT"
  convertDocx := fun _ => .error "ENOENT"
  transformHtml := fun _ c => .ok c
  iconv := fun _ _ c => c

/-! # Theorems -/

theorem wellFormed_mkOk (d : String) : (mkOk d).wellFormed := by
  constructor <;> rfl

theorem wellFormed_mkErr (e : String) : (mkErr e).wellFormed := by
  constructor <;> rfl

/-! ## Helper lemmas: chunking -/

theorem chunkList_flatten (n : Nat) (hn : n ≠ 0) (xs : List String) :
    (chunkList n xs).flatten = xs := by
  induction xs using chunkList.induct n with
  | case1 => rw [chunkList]; simp
  | case2 x hx h0 => exact absurd h0 hn
  | case3 x hx h0 ih =>
    rw [chunkList, if_neg hx, if_neg h0]
    simp only [List.flatten_cons]
    rw [ih, List.take_append_drop]

theorem chunkList_mem_length_le (n : Nat) (xs : List String) :
    ∀ c ∈ chunkList n xs, c.length ≤ n := by
  induction xs using chunkList.induct n with
  | case1 => rw [chunkList]; simp
  | case2 x hx h0 => rw [chunkList, if_neg hx, if_pos h0]; simp
  | case3 x hx h0 ih =>
    rw [chunkList, if_neg hx, if_neg h0]
    intro c hc
    rcases List.mem_cons.mp hc with h | h
    · subst h; exact List.length_take_le _ _
    · exact ih c h

theorem chunkList_dropLast_length (n : Nat) (xs : List String) :
    ∀ c ∈ (chunkList n xs).dropLast, c.length = n := by
  induction xs using chunkList.induct n with
  | case1 => rw [chunkList]; simp
  | case2 x hx h0 => rw [chunkList, if_neg hx, if_pos h0]; simp
  | case3 x hx h0 ih =>
    rw [chunkList, if_neg hx, if_neg h0]
    intro c hc
    rcases hrest : chunkList n (x.drop n) with _ | ⟨d, ds⟩
    · rw [hrest] at hc; simp at hc
    · rw [hrest, List.dropLast_cons_of_ne_nil (by simp)] at hc
      rcases List.mem_cons.mp hc with h | h
      · subst h
        have hlen : n ≤ x.length := by
          by_contra hlt
          push_neg at hlt
          have hdn : x.drop n = [] := List.drop_eq_nil_of_le (le_of_lt hlt)
          rw [hdn, chunkList] at hrest
          simp at hrest
        simpa using List.length_take_of_le hlen
      · exact ih c (hrest ▸ h)

/-! ## Helper lemmas: delimiter splitting -/

theorem splitChars_ne_nil (d s : List Char) : splitChars d s ≠ [] := by
  induction s using splitChars.induct d with
  | case1 => rw [splitChars]; simp
  | case2 c rest h ih => rw [splitChars, if_pos h]; simp
  | case3 c rest h hnil ih => rw [splitChars, if_neg h, hnil]; simp
  | case4 c rest h f fs hcons ih => rw [splitChars, if_neg h, hcons]; simp

theorem joinSep_nil (sep : List Char) : joinSep sep [] = [] := rfl

theorem joinSep_single (sep : List Char) (x : List Char) : joinSep sep [x] = x := rfl

theorem joinSep_cons₂ (sep x y : List Char) (ys : List (List Char)) :
    joinSep sep (x :: y :: ys) = x ++ sep ++ joinSep sep (y :: ys) := rfl

theorem length_splitChars (d s : List Char) :
    (splitChars d s).length = countOccs d s + 1 := by
  induction s using splitChars.induct d with
  | case1 => rw [splitChars, countOccs]; rfl
  | case2 c rest h ih =>
    rw [splitChars, if_pos h, countOccs, if_pos h]
    simp only [List.length_cons]
    omega
  | case3 c rest h hnil ih =>
    exact absurd hnil (splitChars_ne_nil d rest)
  | case4 c rest h f fs hcons ih =>
    rw [splitChars, if_neg h, hcons, countOccs, if_neg h, ← ih, hcons]
    simp

theorem joinSep_splitChars (d : List Char) (hd : d ≠ []) (s : List Char) :
    joinSep d (splitChars d s) = s := by
  induction s using splitChars.induct d with
  | case1 => rw [splitChars]; rfl
  | case2 c rest h ih =>
    rw [splitChars, if_pos h]
    have hne := splitChars_ne_nil d (rest.drop (d.length - 1))
    rcases hsp : splitChars d (rest.drop (d.length - 1)) with _ | ⟨f, fs⟩
    · exact absurd hsp hne
    · rw [hsp] at ih
      rw [joinSep_cons₂, List.nil_append, ih]
      obtain ⟨t, ht⟩ := List.isPrefixOf_iff_prefix.mp h.2
      obtain ⟨m, hm⟩ : ∃ m, d.length = m + 1 := by
        cases hdl : d.length with
        | zero => exact absurd (List.length_eq_zero.mp hdl) hd
        | succ m => exact ⟨m, rfl⟩
      have hdrop : (c :: rest).drop d.length = rest.drop (d.length - 1) := by
        rw [hm]; simp
      rw [← hdrop, ← ht, List.drop_left]
  | case3 c rest h hnil ih =>
    exact absurd hnil (splitChars_ne_nil d rest)
  | case4 c rest h f fs hcons ih =>
    rw [splitChars, if_neg h, hcons]
    rw [hcons] at ih
    cases fs with
    | nil =>
      rw [joinSep_single] at ih ⊢
      rw [← ih]
    | cons g gs =>
      rw [joinSep_cons₂] at ih ⊢
      rw [← ih]
      simp

theorem mem_splitChars_single (c : Char) (s : List Char) :
    ∀ t ∈ splitChars [c] s, c ∉ t := by
  induction s using splitChars.induct [c] with
  | case1 => rw [splitChars]; simp
  | case2 a rest h ih =>
    rw [splitChars, if_pos h]
    intro t ht
    rcases List.mem_cons.mp ht with h1 | h1
    · subst h1; simp
    · simpa using ih t (by simpa using h1)
  | case3 a rest h hnil ih =>
    exact absurd hnil (splitChars_ne_nil [c] rest)
  | case4 a rest h f fs hcons ih =>
    rw [splitChars, if_neg h, hcons]
    intro t ht
    have hac : a ≠ c := by
      intro hac
      apply h
      refine ⟨by simp, ?_⟩
      rw [ List.isPrefixOf_iff_prefix, hac]
      exact ⟨rest, rfl⟩
    rcases List.mem_cons.mp ht with h1 | h1
    · subst h1
      intro hmem
      rcases List.mem_cons.mp hmem with h2 | h2
      · exact hac h2.symm
      · exact ih f (hcons ▸ List.mem_cons_self f fs) h2
    · exact ih t (hcons ▸ List.mem_cons_of_mem f h1)

theorem splitChars_single_no_occ (c : Char) (s : List Char) (h : c ∉ s) :
    splitChars [c] s = [s] := by
  induction s with
  | nil => rw [splitChars]
  | cons a rest ih =>
    have hac : a ≠ c := fun hac => h (hac ▸ List.mem_cons_self a rest)
    have hpre : ¬([c] ≠ [] ∧ List.isPrefixOf [c] (a :: rest)) := by
      rintro ⟨-, hp⟩
      obtain ⟨t, ht⟩ := List.isPrefixOf_iff_prefix.mp hp
      have hca : c = a := by
        have hh := congrArg List.head? ht
        simpa using hh
      exact hac hca.symm
    rw [splitChars, if_neg hpre, ih (fun hm => h (List.mem_cons_of_mem a hm))]

theorem splitChars_single_append (c : Char) (x rest : List Char) (hx : c ∉ x) :
    splitChars [c] (x ++ c :: rest) = x :: splitChars [c] rest := by
  induction x with
  | nil =>
    have hpre : ([c] ≠ [] ∧ List.isPrefixOf [c] (c :: rest)) := by
      refine ⟨by simp, ?_⟩
      rw [ List.isPrefixOf_iff_prefix]
      exact ⟨rest, rfl⟩
    rw [List.nil_append, splitChars, if_pos hpre]
    simp
  | cons a x ih =>
    have hac : a ≠ c := fun hac => hx (hac ▸ List.mem_cons_self a x)
    have hpre : ¬([c] ≠ [] ∧ List.isPrefixOf [c] (a :: (x ++ c :: rest))) := by
      rintro ⟨-, hp⟩
      obtain ⟨t, ht⟩ := List.isPrefixOf_iff_prefix.mp hp
      have hca : c = a := by
        have hh := congrArg List.head? ht
        simpa using hh
      exact hac hca.symm
    have ih' := ih (fun hm => hx (List.mem_cons_of_mem a hm))
    rw [List.cons_append, splitChars, if_neg hpre, ih']

theorem splitChars_joinSep_single (c : Char) (pieces : List (List Char))
    (hne : pieces ≠ []) (hocc : ∀ t ∈ pieces, c ∉ t) :
    splitChars [c] (joinSep [c] pieces) = pieces := by
  induction pieces with
  | nil => exact absurd rfl hne
  | cons x ps ih =>
    cases ps with
    | nil =>
      rw [joinSep]
      exact splitChars_single_no_occ c x (hocc x (List.mem_cons_self x []))
    | cons y ys =>
      have hjoin : joinSep [c] (x :: y :: ys) = x ++ c :: joinSep [c] (y :: ys) := by
        rw [joinSep]; simp
      rw [hjoin, splitChars_single_append c x _ (hocc x (List.mem_cons_self x _)),
        ih (by simp) (fun t ht => hocc t (List.mem_cons_of_mem x ht))]

/-! ## Helper lemmas: trimming and blank-line collapsing -/

theorem head?_dropWhile_not (p : Char → Bool) (l : List Char) :
    ∀ x, (l.dropWhile p).head? = some x → p x = false := by
  induction l with
  | nil => intro x h; simp at h
  | cons a l ih =>
    intro x h
    rw [List.dropWhile_cons] at h
    by_cases hpa : p a
    · rw [if_pos hpa] at h; exact ih x h
    · rw [if_neg hpa] at h
      simp at h
      subst h
      exact Bool.not_eq_true _ ▸ (by simpa using hpa)

theorem getLast?_dropWhile_ne_nil (p : Char → Bool) (l : List Char)
    (h : l.dropWhile p ≠ []) : (l.dropWhile p).getLast? = l.getLast? := by
  induction l with
  | nil => simp at h
  | cons a l ih =>
    rw [List.dropWhile_cons] at h ⊢
    by_cases hpa : p a
    · rw [if_pos hpa] at h ⊢
      have hl : l ≠ [] := by
        intro he
        subst he
        simp at h
      cases l with
      | nil => exact absurd rfl hl
      | cons b l => rw [ih h, List.getLast?_cons_cons]
    · rw [if_neg hpa]

theorem dropWhile_eq_self_of_head (p : Char → Bool) (l : List Char)
    (h : ∀ x, l.head? = some x → p x = false) : l.dropWhile p = l := by
  cases l with
  | nil => rfl
  | cons a l =>
    rw [List.dropWhile_cons, if_neg]
    simp [h a rfl]

theorem head?_jsTrim_not (l : List Char) :
    ∀ x, (jsTrim l).head? = some x → Char.isWhitespace x = false := by
  intro x h
  rw [jsTrim, List.head?_reverse] at h
  have hne : ((l.dropWhile Char.isWhitespace).reverse.dropWhile Char.isWhitespace) ≠ [] := by
    intro he
    rw [he] at h
    simp at h
  rw [getLast?_dropWhile_ne_nil _ _ hne, List.getLast?_reverse] at h
  exact head?_dropWhile_not _ _ x h

theorem getLast?_jsTrim_not (l : List Char) :
    ∀ x, (jsTrim l).getLast? = some x → Char.isWhitespace x = false := by
  intro x h
  rw [jsTrim, List.getLast?_reverse] at h
  exact head?_dropWhile_not _ _ x h

theorem jsTrim_idem (l : List Char) : jsTrim (jsTrim l) = jsTrim l := by
  conv_lhs => rw [jsTrim]
  rw [dropWhile_eq_self_of_head _ _ (head?_jsTrim_not l)]
  rw [dropWhile_eq_self_of_head]
  · rw [List.reverse_reverse]
  · intro x hx
    rw [List.head?_reverse] at hx
    exact getLast?_jsTrim_not l x hx

theorem mem_dropWhile (p : Char → Bool) (l : List Char) :
    ∀ x ∈ l.dropWhile p, x ∈ l := by
  induction l with
  | nil => simp
  | cons a l ih =>
    intro x hx
    rw [List.dropWhile_cons] at hx
    by_cases hpa : p a
    · rw [if_pos hpa] at hx; exact List.mem_cons_of_mem a (ih x hx)
    · rw [if_neg hpa] at hx; exact hx

theorem mem_jsTrim (l : List Char) : ∀ x ∈ jsTrim l, x ∈ l := by
  intro x hx
  rw [jsTrim, List.mem_reverse] at hx
  have h1 := mem_dropWhile _ _ x hx
  rw [List.mem_reverse] at h1
  exact mem_dropWhile _ _ x h1

theorem mem_collapseAux (l : List (List Char)) :
    ∀ prev, ∀ x ∈ collapseAux prev l, x ∈ l := by
  induction l with
  | nil => intro prev x hx; rw [collapseAux] at hx; simp at hx
  | cons a l ih =>
    intro prev x hx
    rw [collapseAux] at hx
    by_cases hc : a = [] ∧ prev = some []
    · rw [if_pos hc] at hx
      exact List.mem_cons_of_mem a (ih (some a) x hx)
    · rw [if_neg hc] at hx
      rcases List.mem_cons.mp hx with h | h
      · exact h ▸ List.mem_cons_self a l
      · exact List.mem_cons_of_mem a (ih (some a) x h)

theorem head?_collapseAux_blank (l : List (List Char)) :
    ∀ x, (collapseAux (some []) l).head? = some x → x ≠ [] := by
  induction l with
  | nil => intro x hx; rw [collapseAux] at hx; simp at hx
  | cons a l ih =>
    intro x hx
    rw [collapseAux] at hx
    by_cases ha : a = []
    · rw [if_pos ⟨ha, rfl⟩, ha] at hx
      exact ih x hx
    · rw [if_neg (fun hc => ha hc.1)] at hx
      simp at hx
      exact hx ▸ ha

theorem chain'_collapseAux (l : List (List Char)) :
    ∀ prev, List.Chain' (fun a b => ¬(a = [] ∧ b = [])) (collapseAux prev l) := by
  induction l with
  | nil => intro prev; rw [collapseAux]; exact List.chain'_nil
  | cons a l ih =>
    intro prev
    rw [collapseAux]
    by_cases hc : a = [] ∧ prev = some []
    · rw [if_pos hc]
      exact ih (some a)
    · rw [if_neg hc]
      rw [List.chain'_cons']
      refine ⟨?_, ih (some a)⟩
      intro y hy
      by_cases ha : a = []
      · subst ha
        rintro ⟨-, hy0⟩
        exact head?_collapseAux_blank l y hy hy0
      · rintro ⟨h1, -⟩
        exact ha h1

theorem filter_collapseAux (l : List (List Char)) :
    ∀ prev, (collapseAux prev l).filter (fun x => !x.isEmpty) =
      l.filter (fun x => !x.isEmpty) := by
  induction l with
  | nil => intro prev; rw [collapseAux]
  | cons a l ih =>
    intro prev
    rw [collapseAux]
    by_cases hc : a = [] ∧ prev = some []
    · rw [if_pos hc, List.filter_cons_of_neg (by simp [hc.1]), ih (some a)]
    · rw [if_neg hc, List.filter_cons, List.filter_cons, ih (some a)]

theorem collapseAux_none_ne_nil (l : List (List Char)) (h : l ≠ []) :
    collapseAux none l ≠ [] := by
  cases l with
  | nil => exact absurd rfl h
  | cons a l =>
    rw [collapseAux, if_neg (by simp)]
    simp

theorem splitChars_formatTextCore (content : List Char) :
    splitChars ['\n'] (formatTextCore content) =
      collapseAux none ((splitChars ['\n'] content).map jsTrim) := by
  rw [formatTextCore]
  apply splitChars_joinSep_single
  · exact collapseAux_none_ne_nil _ (by
      simp only [ne_eq, List.map_eq_nil_iff]
      exact splitChars_ne_nil _ _)
  · intro t ht
    have h1 := mem_collapseAux _ none t ht
    obtain ⟨u, hu, hut⟩ := List.mem_map.mp h1
    intro hmem
    exact mem_splitChars_single '\n' content u hu (mem_jsTrim u '\n' (hut ▸ hmem))

/-! ## Helper lemmas: diff classification -/

theorem lineTokens_ne_nil (s : List Char) (h : s ≠ []) : lineTokens s ≠ [] := by
  cases s with
  | nil => exact absurd rfl h
  | cons c rest =>
    rw [lineTokens]
    by_cases hc : c = '\n'
    · rw [if_pos hc]; simp
    · rw [if_neg hc]
      rcases lineTokens rest with _ | ⟨t, ts⟩ <;> simp

theorem flatten_lineTokens (s : List Char) : (lineTokens s).flatten = s := by
  induction s with
  | nil => rw [lineTokens]; rfl
  | cons c rest ih =>
    rw [lineTokens]
    by_cases hc : c = '\n'
    · rw [if_pos hc, hc]
      simpa using ih
    · rw [if_neg hc]
      rcases hlt : lineTokens rest with _ | ⟨t, ts⟩
      · have : rest = [] := by
          by_contra hne
          exact lineTokens_ne_nil rest hne hlt
        simp [this]
      · rw [hlt] at ih
        simp only [List.flatten_cons] at ih ⊢
        rw [List.cons_append, ih]

theorem lcs_self {β : Type} [DecidableEq β] (l : List β) : lcs l l = l := by
  induction l with
  | nil => rw [lcs]
  | cons a l ih => rw [lcs, if_pos rfl, ih]

theorem markDiff_self {β : Type} [DecidableEq β] (l : List β) :
    markDiff l l l = l.map (fun x => (DiffKind.unchanged, x)) := by
  induction l with
  | nil => rw [markDiff]; rfl
  | cons a l ih => rw [markDiff, if_pos rfl, if_pos rfl, ih]; rfl

theorem groupRuns_uniform (k : DiffKind) (l : List (List Char)) (h : l ≠ []) :
    groupRuns (l.map (fun v => (k, v))) = [⟨k, l.flatten⟩] := by
  induction l with
  | nil => exact absurd rfl h
  | cons v ps ih =>
    cases ps with
    | nil => rw [List.map_cons, List.map_nil, groupRuns, groupRuns]; simp
    | cons w ws =>
      rw [List.map_cons, groupRuns, ih (by simp)]
      simp

theorem diffLines_self (t : List Char) (h : t ≠ []) :
    diffLines t t = [⟨DiffKind.unchanged, t⟩] := by
  rw [diffLines, lcs_self, markDiff_self,
    groupRuns_uniform _ _ (lineTokens_ne_nil t h), flatten_lineTokens]

theorem compareTextsCore_self (t : List Char) (h : t ≠ []) :
    compareTextsCore t t = ' ' :: ' ' :: t := by
  rw [compareTextsCore, diffLines_self t h]
  simp [markFor]

/-! ## Helper lemmas: PDF page engine -/

theorem copyPages_range {α : Type} (pages : List α) :
    ∀ (n : Nat) (s : Int), 0 ≤ s → s.toNat + n ≤ pages.length →
      copyPages pages ((List.range n).map (fun k : Nat => s + (k : Int))) =
        some ((pages.drop s.toNat).take n) := by
  intro n
  induction n with
  | zero =>
    intro s hs hn
    rw [List.range_zero, List.map_nil, copyPages]
    simp
  | succ m ih =>
    intro s hs hn
    simp only [List.range_succ_eq_map, List.map_cons, List.map_map, Nat.cast_zero, add_zero]
    have hmap : (List.range m).map ((fun k : Nat => s + (k : Int)) ∘ Nat.succ) =
        (List.range m).map (fun k : Nat => (s + 1) + (k : Int)) := by
      apply List.map_congr_left
      intro a _
      simp only [Function.comp_apply]
      push_cast
      ring
    rw [hmap]
    have hlt : s.toNat < pages.length := by omega
    have hget : pages.get? s.toNat = some (pages.get ⟨s.toNat, hlt⟩) :=
      List.get?_eq_get hlt
    have hsucc : (s + 1).toNat = s.toNat + 1 := by omega
    have ih' := ih (s + 1) (by omega) (by omega)
    rw [hsucc] at ih'
    rw [copyPages, if_pos hs, hget, ih']
    have hdrop : pages.drop s.toNat =
        pages.get ⟨s.toNat, hlt⟩ :: pages.drop (s.toNat + 1) := by
      rw [List.drop_eq_getElem_cons hlt]
      rfl
    rw [hdrop, List.take_succ_cons]

theorem copyPages_rangeSlice {α : Type} (pages : List α) (r : PageRange)
    (h : validRange r pages.length) :
    copyPages pages (pageIndexes r) = some (rangeSlice pages r) := by
  obtain ⟨h1, h2, h3⟩ := h
  rw [pageIndexes, rangeSlice]
  exact copyPages_range pages (r.stop - r.start + 1).toNat (r.start - 1)
    (by omega) (by omega)

theorem splitGo_append_valid {α : Type} (pages : List α) :
    ∀ (pre : List PageRange), (∀ r ∈ pre, validRange r pages.length) →
    ∀ (rest : List PageRange) (i : Nat) (written : List (Nat × List α)),
      splitGo pages (pre ++ rest) i written =
        splitGo pages rest (i + pre.length)
          (written ++ (List.enumFrom (i + 1) pre).map
            (fun p => (p.1, rangeSlice pages p.2))) := by
  intro pre
  induction pre with
  | nil =>
    intro _ rest i written
    simp
  | cons r pre ih =>
    intro hpre rest i written
    obtain ⟨h1, h2, h3⟩ := hpre r (List.mem_cons_self r pre)
    rw [List.cons_append, splitGo, if_neg (by omega), if_neg (by omega),
      copyPages_rangeSlice pages r ⟨h1, h2, h3⟩]
    show splitGo pages (pre ++ rest) (i + 1) (written ++ [(i + 1, rangeSlice pages r)]) = _
    rw [ih (fun r hr => hpre r (List.mem_cons_of_mem _ hr)) rest (i + 1)]
    rw [List.enumFrom_cons, List.map_cons]
    simp only [List.length_cons, List.append_assoc, List.singleton_append]
    congr 1
    omega

theorem splitGo_wellFormed {α : Type} (pages : List α) :
    ∀ (ranges : List PageRange) (i : Nat) (written : List (Nat × List α)),
      (splitGo pages ranges i written).1.wellFormed := by
  intro ranges
  induction ranges with
  | nil => intro i written; rw [splitGo]; exact wellFormed_mkOk _
  | cons r rest ih =>
    intro i written
    rw [splitGo]
    by_cases hb : r.start > (pages.length : Int) ∨ r.stop > (pages.length : Int)
    · rw [if_pos hb]; exact wellFormed_mkErr _
    · rw [if_neg hb]
      by_cases ho : r.start > r.stop
      · rw [if_pos ho]; exact wellFormed_mkErr _
      · rw [if_neg ho]
        rcases hc : copyPages pages (pageIndexes r) with _ | doc
        · exact wellFormed_mkErr _
        · exact ih (i + 1) (written ++ [(i + 1, doc)])

theorem mergeGo_forall₂ {α : Type} (loadPdf : String → Except String (List α)) :
    ∀ (paths : List String) (docs : List (List α)),
      List.Forall₂ (fun p d => loadPdf p = .ok d) paths docs →
      ∀ acc, mergeGo loadPdf paths acc = .ok (acc ++ docs.flatten) := by
  intro paths docs h
  induction h with
  | nil => intro acc; rw [mergeGo]; simp
  | @cons a b l1 l2 hpd htl ih =>
    intro acc
    rw [mergeGo, hpd]
    show mergeGo loadPdf l1 (acc ++ b) = _
    rw [ih]
    simp

theorem copyPages_pageIndexes_neg {α : Type} (pages : List α) (r : PageRange)
    (h0 : r.start ≤ 0) (h2 : r.start ≤ r.stop) :
    copyPages pages (pageIndexes r) = none := by
  rw [pageIndexes]
  obtain ⟨m, hm⟩ : ∃ m, (r.stop - r.start + 1).toNat = m + 1 :=
    ⟨(r.stop - r.start).toNat, by omega⟩
  rw [hm]
  simp only [List.range_succ_eq_map, List.map_cons, Nat.cast_zero, add_zero]
  rw [copyPages, if_neg (by omega)]

/-! ## Claim theorems -/

/-- Claim C1, corrected.  The claim says an invalid range aborts the whole
split with no files written at all.  In the code the validation runs inside
the per-range loop, after earlier ranges have already been copied and
persisted: when every range before the first invalid one is valid, the call
fails but the files for those earlier ranges have been written (one per
earlier range, numbered from 1). -/
theorem C1_split_abort_keeps_earlier_files {α : Type} (pages : List α)
    (pre : List PageRange) (bad : PageRange) (rest : List PageRange)
    (hpre : ∀ r ∈ pre, validRange r pages.length)
    (hbad : ¬passesValidation bad pages.length) :
    (splitPDF pages (pre ++ bad :: rest)).1.success = false ∧
      (splitPDF pages (pre ++ bad :: rest)).2 =
        (List.enumFrom 1 pre).map (fun p => (p.1, rangeSlice pages p.2)) := by
  rw [splitPDF, splitGo_append_valid pages pre hpre (bad :: rest) 0 []]
  simp only [List.nil_append, Nat.zero_add]
  rw [splitGo]
  by_cases hb : bad.start > (pages.length : Int) ∨ bad.stop > (pages.length : Int)
  · rw [if_pos hb]
    exact ⟨rfl, rfl⟩
  · have ho : bad.start > bad.stop := by
      by_contra hno
      exact hbad ⟨hb, hno⟩
    rw [if_neg hb, if_pos ho]
    exact ⟨rfl, rfl⟩

/-- Claim C1, counterexample to the claim as stated: in a 2-page document,
the range list `[{1,1}, {5,5}]` fails the call (the second range exceeds the
document), yet the file for the first range has been written — not
"no output files at all". -/
theorem C1_counterexample :
    (splitPDF ([10, 20] : List Nat) [⟨1, 1⟩, ⟨5, 5⟩]).1.success = false ∧
      (splitPDF ([10, 20] : List Nat) [⟨1, 1⟩, ⟨5, 5⟩]).2 = [(1, [10])] := by
  decide

/-- Claim C1, witness for the corrected theorem at a concrete input. -/
theorem C1_witness :
    (splitPDF ([10, 20] : List Nat) ([⟨2, 2⟩] ++ ⟨3, 1⟩ :: [])).1.success = false ∧
      (splitPDF ([10, 20] : List Nat) ([⟨2, 2⟩] ++ ⟨3, 1⟩ :: [])).2 =
        (List.enumFrom 1 [PageRange.mk 2 2]).map
          (fun p => (p.1, rangeSlice ([10, 20] : List Nat) p.2)) :=
  C1_split_abort_keeps_earlier_files [10, 20] [⟨2, 2⟩] ⟨3, 1⟩ [] (by decide) (by decide)

/-- Claim C4, corrected.  The claim says ranges violating `1 ≤ start` are
rejected before any page copy.  The code's validation checks only
`start > totalPages || end > totalPages` and `start > end` — a range with
`start ≤ 0` and `end ≤ totalPages` passes validation, the page-copy step is
attempted on a negative index and throws inside the PDF library, and files
for valid ranges earlier in the list remain written. -/
theorem C4_lower_bound_not_rejected {α : Type} (pages : List α)
    (pre : List PageRange) (r : PageRange)
    (hpre : ∀ q ∈ pre, validRange q pages.length)
    (h0 : r.start ≤ 0) (h2 : r.start ≤ r.stop) (h3 : r.stop ≤ (pages.length : Int)) :
    passesValidation r pages.length ∧
      (splitPDF pages (pre ++ [r])).1 = mkErr copyErrMsg ∧
      (splitPDF pages (pre ++ [r])).2 =
        (List.enumFrom 1 pre).map (fun p => (p.1, rangeSlice pages p.2)) := by
  have hpass : passesValidation r pages.length := by
    constructor
    · push_neg
      constructor <;> omega
    · omega
  refine ⟨hpass, ?_⟩
  rw [splitPDF, splitGo_append_valid pages pre hpre [r] 0 []]
  simp only [List.nil_append, Nat.zero_add]
  rw [splitGo, if_neg hpass.1, if_neg hpass.2,
    copyPages_pageIndexes_neg pages r h0 h2]
  exact ⟨rfl, rfl⟩

/-- Claim C4, counterexample to the claim as stated: in a 2-page document
the range `{0,1}` passes the code's validation (it is not rejected before
the page copy), and the call `[{1,1}, {0,1}]` containing it still writes the
file for the first range. -/
theorem C4_counterexample :
    passesValidation ⟨0, 1⟩ 2 ∧
      (splitPDF ([10, 20] : List Nat) [⟨1, 1⟩, ⟨0, 1⟩]).1.success = false ∧
      (splitPDF ([10, 20] : List Nat) [⟨1, 1⟩, ⟨0, 1⟩]).2 = [(1, [10])] ∧
      (splitPDF ([10, 20] : List Nat) [⟨0, 1⟩]).1.error = some copyErrMsg := by
  decide

/-- Claim C4, witness for the corrected theorem at a concrete input. -/
theorem C4_witness :
    passesValidation ⟨0, 1⟩ (List.length ([10, 20] : List Nat)) ∧
      (splitPDF ([10, 20] : List Nat) ([⟨1, 1⟩] ++ [⟨0, 1⟩])).1 = mkErr copyErrMsg ∧
      (splitPDF ([10, 20] : List Nat) ([⟨1, 1⟩] ++ [⟨0, 1⟩])).2 =
        (List.enumFrom 1 [PageRange.mk 1 1]).map
          (fun p => (p.1, rangeSlice ([10, 20] : List Nat) p.2)) :=
  C4_lower_bound_not_rejected [10, 20] [⟨1, 1⟩] ⟨0, 1⟩
    (by decide) (by decide) (by decide) (by decide)

/-- Claim C5, confirmed.  For a list of ranges that are all valid
(`1 ≤ start ≤ end ≤ totalPages`), `splitPDF` succeeds; the file written for
the range at (0-based) position `i` carries 1-based suffix `i + 1` and holds
exactly the contiguous slice of source pages `[start-1 .. end-1]`, in
original order, of length `end - start + 1`; the 0-based index sequence
built for a range is exactly the integer interval `[start-1, end-1]`; and
overlapping or out-of-order ranges each produce their own numbered file. -/
theorem C5_split_valid_ranges {α : Type} (pages : List α) (ranges : List PageRange)
    (hval : ∀ r ∈ ranges, validRange r pages.length) :
    splitPDF pages ranges =
      (mkOk ("Successfully split PDF into " ++ toString ranges.length ++ " files"),
        (List.enumFrom 1 ranges).map (fun p => (p.1, rangeSlice pages p.2))) ∧
      (∀ r ∈ ranges, (rangeSlice pages r).length = (r.stop - r.start + 1).toNat) ∧
      (∀ r ∈ ranges, ∀ j : Int, j ∈ pageIndexes r ↔ r.start - 1 ≤ j ∧ j ≤ r.stop - 1) ∧
      (∀ r ∈ ranges, ∀ k : Nat, k < (r.stop - r.start + 1).toNat →
        (rangeSlice pages r)[k]? = pages[(r.start - 1).toNat + k]?) := by
  refine ⟨?_, ?_, ?_, ?_⟩
  · have h := splitGo_append_valid pages ranges hval [] 0 []
    rw [List.append_nil] at h
    rw [splitPDF, h, splitGo]
    simp
  · intro r hr
    obtain ⟨h1, h2, h3⟩ := hval r hr
    rw [rangeSlice]
    simp only [List.length_take, List.length_drop]
    omega
  · intro r hr j
    rw [pageIndexes]
    simp only [List.mem_map, List.mem_range]
    constructor
    · rintro ⟨k, hk, rfl⟩
      constructor <;> omega
    · rintro ⟨hj1, hj2⟩
      refine ⟨(j - (r.start - 1)).toNat, by omega, by omega⟩
  · intro r hr k hk
    rw [rangeSlice, List.getElem?_take_of_lt hk, List.getElem?_drop]

/-- Claim C5, witness: a 4-page document with overlapping, out-of-order
ranges, one of them a single page. -/
theorem C5_witness :
    splitPDF ([10, 20, 30, 40] : List Nat) [⟨2, 4⟩, ⟨1, 1⟩, ⟨2, 4⟩] =
      (mkOk "Successfully split PDF into 3 files",
        [(1, [20, 30, 40]), (2, [10]), (3, [20, 30, 40])]) := by
  have h := C5_split_valid_ranges ([10, 20, 30, 40] : List Nat)
    [⟨2, 4⟩, ⟨1, 1⟩, ⟨2, 4⟩] (by decide)
  rw [h.1]
  decide

/-- Claim C6, confirmed.  When every source document loads, `mergePDFs`
writes exactly one output document whose page sequence is the concatenation
of the sources' page sequences in list order, with the page counts adding
up. -/
theorem C6_merge_concat {α : Type} (loadPdf : String → Except String (List α))
    (paths : List String) (docs : List (List α))
    (h : List.Forall₂ (fun p d => loadPdf p = .ok d) paths docs) :
    mergePDFs loadPdf (some paths) =
      (mkOk ("Successfully merged " ++ toString paths.length ++ " PDFs"),
        [docs.flatten]) ∧
      docs.flatten.length = (docs.map List.length).sum := by
  have hm := mergeGo_forall₂ loadPdf paths docs h []
  rw [List.nil_append] at hm
  constructor
  · rw [mergePDFs, hm]
  · simp

/-- Claim C6, witness: merging a 3-page and a 2-page document yields one
5-page document. -/
theorem C6_witness :
    mergePDFs sampleEnv.loadPdf (some ["a.pdf", "b.pdf"]) =
      (mkOk "Successfully merged 2 PDFs", [[1, 2, 3, 4, 5]]) ∧
      ([[1, 2, 3], [4, 5]] : List (List Nat)).flatten.length = 5 := by
  have h := C6_merge_concat sampleEnv.loadPdf ["a.pdf", "b.pdf"] [[1, 2, 3], [4, 5]]
    (List.Forall₂.cons rfl (List.Forall₂.cons rfl List.Forall₂.nil))
  refine ⟨?_, by decide⟩
  rw [h.1]
  rfl

/-- Claim C7, confirmed.  For `splitBy = lines` with a parsed count `N ≥ 1`,
`splitText` chunks the input's newline-split line list into consecutive
groups of at most `N` lines, every non-final chunk holding exactly `N`
lines, no chunk splitting a line, and concatenating the chunks in order
reproduces the original line sequence exactly. -/
theorem C7_splitText_lines (content value : String) (n : Int)
    (hv : parseIntJS value = some n) (hn : 1 ≤ n) :
    splitTextParts content (some "lines") (some value) =
      .ok ((chunkList n.toNat (jsSplit content "\n")).map
        (fun c => String.intercalate "\n" c)) ∧
      (chunkList n.toNat (jsSplit content "\n")).flatten = jsSplit content "\n" ∧
      (∀ c ∈ chunkList n.toNat (jsSplit content "\n"), c.length ≤ n.toNat) ∧
      (∀ c ∈ (chunkList n.toNat (jsSplit content "\n")).dropLast,
        c.length = n.toNat) := by
  refine ⟨?_, chunkList_flatten n.toNat (by omega) _,
    chunkList_mem_length_le _ _, chunkList_dropLast_length _ _⟩
  unfold splitTextParts
  rw [if_pos rfl]
  simp only [Option.getD_some, hv]
  rw [if_neg (by omega)]

/-- Claim C7, witness: five lines split in chunks of two. -/
theorem C7_witness :
    splitTextParts "a\nb\nc\nd\ne" (some "lines") (some "2") =
      .ok ["a\nb", "c\nd", "e"] ∧
      (chunkList (Int.toNat 2) (jsSplit "a\nb\nc\nd\ne" "\n")).flatten =
        jsSplit "a\nb\nc\nd\ne" "\n" := by
  have h := C7_splitText_lines "a\nb\nc\nd\ne" "2" 2 (by decide) (by decide)
  refine ⟨?_, h.2.1⟩
  rw [h.1]
  simp [chunkList, jsSplit, splitChars]
  decide

/-- Claim C8, confirmed (for a nonempty literal delimiter, the only case in
which "k delimiter occurrences" is meaningful).  `splitText` with
`splitBy = delimiter` partitions the input by exact non-overlapping
occurrences of the delimiter: an input with `k` occurrences yields exactly
`k + 1` fragments, the fragments joined by the delimiter reproduce the
input, and `"a,b,,c"` split on `","` yields exactly
`"a"`, `"b"`, `""`, `"c"`. -/
theorem C8_splitText_delimiter (content value : String) (hv : value ≠ "") :
    splitTextParts content (some "delimiter") (some value) =
      .ok (jsSplit content value) ∧
      (jsSplit content value).length = countOccs value.data content.data + 1 ∧
      joinSep value.data (splitChars value.data content.data) = content.data ∧
      splitTextParts "a,b,,c" (some "delimiter") (some ",") =
        .ok ["a", "b", "", "c"] := by
  have hd : value.data ≠ [] := by
    intro hdata
    exact hv (String.ext (hdata.trans rfl))
  refine ⟨?_, ?_, joinSep_splitChars value.data hd content.data, ?_⟩
  · unfold splitTextParts
    rw [if_neg (by decide)]
  · rw [jsSplit, if_neg hv, List.length_map, length_splitChars]
  · unfold splitTextParts
    rw [if_neg (by decide)]
    simp [jsSplit, splitChars]

/-- Claim C8, witness: the concrete example from the claim. -/
theorem C8_witness :
    splitTextParts "a,b,,c" (some "delimiter") (some ",") =
      .ok ["a", "b", "", "c"] ∧
      (jsSplit "a,b,,c" ",").length = countOccs ",".data "a,b,,c".data + 1 := by
  have h := C8_splitText_delimiter "a,b,,c" "," (by decide)
  exact ⟨h.2.2.2, h.2.1⟩

/-- Claim C3, counterexample to the claim as stated: the code prefixes each
diff run, not each line.  Diffing the identical two-line input `"a\nb"`
against itself produces `"  a\nb"`, whose second line does not carry the
`"  "` prefix — so "every line carries the unchanged prefix" fails. -/
theorem C3_counterexample :
    compareTextsCore "a\nb".data "a\nb".data = "  a\nb".data ∧
      ((splitChars ['\n'] (compareTextsCore "a\nb".data "a\nb".data)).all
        (fun l => [' ', ' '].isPrefixOf l)) = false := by
  constructor
  · simp [compareTextsCore, diffLines, lineTokens, lcs, markDiff, groupRuns, markFor]
  · simp [compareTextsCore, diffLines, lineTokens, lcs, markDiff, groupRuns,
      markFor, splitChars]
    decide

/-- Claim C3, corrected.  Diffing two identical inputs yields a single
unchanged run (so the output is `"  "` followed by the input verbatim and
no `"+ "` or `"- "` run marker appears; only the first line of the run
carries the prefix); diffing `"a\nb"` against `"a\nc"` yields one unchanged
run (`a`), one removed run (`b`) and one added run (`c`), rendered with
`"  "`, `"- "` and `"+ "` in original line order. -/
theorem C3_diff_runs (t : List Char) (h : t ≠ []) :
    diffLines t t = [⟨DiffKind.unchanged, t⟩] ∧
      compareTextsCore t t = ' ' :: ' ' :: t ∧
      (∀ p ∈ diffLines t t, p.kind = DiffKind.unchanged) ∧
      diffLines "a\nb".data "a\nc".data =
        [⟨DiffKind.unchanged, "a\n".data⟩, ⟨DiffKind.removed, "b".data⟩,
          ⟨DiffKind.added, "c".data⟩] ∧
      compareTextsCore "a\nb".data "a\nc".data = "  a\n- b+ c".data := by
  refine ⟨diffLines_self t h, compareTextsCore_self t h, ?_, ?_, ?_⟩
  · rw [diffLines_self t h]
    intro p hp
    rw [List.mem_singleton] at hp
    rw [hp]
  · simp [diffLines, lineTokens, lcs, markDiff, groupRuns]
  · simp [compareTextsCore, diffLines, lineTokens, lcs, markDiff, groupRuns, markFor]

/-- Claim C3, witness for the corrected theorem at a concrete input. -/
theorem C3_witness :
    compareTextsCore "x\ny".data "x\ny".data = ' ' :: ' ' :: "x\ny".data ∧
      compareTextsCore "a\nb".data "a\nc".data = "  a\n- b+ c".data := by
  have h := C3_diff_runs "x\ny".data (by decide)
  exact ⟨h.2.1, h.2.2.2.2⟩

/-- Claim C10, confirmed.  For every input, `formatText` produces output in
which every line equals its whitespace-trimmed self, no two consecutive
lines are both empty (runs of blank lines collapse to one blank line rather
than disappearing: the non-blank lines are preserved exactly), as the spec
never states. -/
theorem C10_formatText_lines (content : List Char) :
    (∀ l ∈ splitChars ['\n'] (formatTextCore content), jsTrim l = l) ∧
      List.Chain' (fun a b => ¬(a = [] ∧ b = []))
        (splitChars ['\n'] (formatTextCore content)) ∧
      (splitChars ['\n'] (formatTextCore content)).filter (fun l => !l.isEmpty) =
        ((splitChars ['\n'] content).map jsTrim).filter (fun l => !l.isEmpty) := by
  rw [splitChars_formatTextCore]
  refine ⟨?_, chain'_collapseAux _ none, filter_collapseAux _ none⟩
  intro l hl
  have h1 := mem_collapseAux _ none l hl
  obtain ⟨u, hu, hut⟩ := List.mem_map.mp h1
  rw [← hut]
  exact jsTrim_idem u

/-! ## Helper lemmas: envelope well-formedness of each handler -/

theorem mergePDFs_wf {α : Type} (loadPdf : String → Except String (List α))
    (ips : Option (List String)) : (mergePDFs loadPdf ips).1.wellFormed := by
  unfold mergePDFs
  repeat' split
  all_goals first
    | exact wellFormed_mkErr _
    | exact wellFormed_mkOk _

theorem mergePDFsHandler_wf (env : Env) (ips : Option (List String))
    (od : Option String) : (mergePDFsHandler env ips od).1.wellFormed := by
  unfold mergePDFsHandler
  split
  · exact wellFormed_mkErr _
  · exact mergePDFs_wf env.loadPdf ips

theorem splitPDFHandler_wf (env : Env) (ip od : Option String)
    (prs : Option (List PageRange)) : (splitPDFHandler env ip od prs).1.wellFormed := by
  unfold splitPDFHandler
  repeat' split
  all_goals first
    | exact wellFormed_mkErr _
    | exact splitGo_wellFormed _ _ 0 []

theorem splitTextHandler_wf (env : Env) (ip od sb v : Option String) :
    (splitTextHandler env ip od sb v).1.wellFormed := by
  unfold splitTextHandler
  repeat' split
  all_goals first
    | exact wellFormed_mkErr _
    | exact wellFormed_mkOk _

theorem formatTextHandler_wf (env : Env) (ip od : Option String) :
    (formatTextHandler env ip od).1.wellFormed := by
  unfold formatTextHandler
  repeat' split
  all_goals first
    | exact wellFormed_mkErr _
    | exact wellFormed_mkOk _

theorem compareTextsHandler_wf (env : Env) (f1 f2 od : Option String) :
    (compareTextsHandler env f1 f2 od).1.wellFormed := by
  unfold compareTextsHandler
  repeat' split
  all_goals first
    | exact wellFormed_mkErr _
    | exact wellFormed_mkOk _

theorem fileTransformHandler_wf (env : Env) (op okMsg : String)
    (ip od : Option String) : (fileTransformHandler env op okMsg ip od).wellFormed := by
  unfold fileTransformHandler
  repeat' split
  all_goals first
    | exact wellFormed_mkErr _
    | exact wellFormed_mkOk _

theorem convertTextEncodingHandler_wf (env : Env) (ip od fe te : Option String) :
    (convertTextEncodingHandler env ip od fe te).wellFormed := by
  unfold convertTextEncodingHandler
  repeat' split
  all_goals first
    | exact wellFormed_mkErr _
    | exact wellFormed_mkOk _

theorem convertDocxToPdf_wf (env : Env) (ip op : String) :
    (convertDocxToPdf env ip op).wellFormed := by
  unfold convertDocxToPdf
  repeat' split
  all_goals first
    | exact wellFormed_mkErr _
    | exact wellFormed_mkOk _

theorem readFile_wf (env : Env) (fp : String) : (readFile env fp).wellFormed := by
  unfold readFile
  repeat' split
  all_goals dsimp only
  all_goals repeat' split
  all_goals first
    | exact wellFormed_mkErr _
    | exact wellFormed_mkOk _

/-- Claim C9, confirmed.  Every modelled handler, on every input and every
collaborator environment (including environments in which every read,
parse or conversion throws), returns an operation-result envelope in which
`data` is populated exactly when `success` is `true` and `error` exactly
when it is `false`; being total Lean functions into that envelope, no
exception escapes any of them to the dispatcher. -/
theorem C9_handlers_envelope :
    (∀ (env : Env) (ip od : Option String) (prs : Option (List PageRange)),
      (splitPDFHandler env ip od prs).1.wellFormed) ∧
    (∀ (env : Env) (ips : Option (List String)) (od : Option String),
      (mergePDFsHandler env ips od).1.wellFormed) ∧
    (∀ (env : Env) (ip od sb v : Option String),
      (splitTextHandler env ip od sb v).1.wellFormed) ∧
    (∀ (env : Env) (ip od : Option String),
      (formatTextHandler env ip od).1.wellFormed) ∧
    (∀ (env : Env) (f1 f2 od : Option String),
      (compareTextsHandler env f1 f2 od).1.wellFormed) ∧
    (∀ (env : Env) (ip op : String), (convertDocxToPdf env ip op).wellFormed) ∧
    (∀ (env : Env) (fp : String), (readFile env fp).wellFormed) ∧
    (∀ (env : Env) (op okMsg : String) (ip od : Option String),
      (fileTransformHandler env op okMsg ip od).wellFormed) ∧
    (∀ (env : Env) (ip od fe te : Option String),
      (convertTextEncodingHandler env ip od fe te).wellFormed) :=
  ⟨splitPDFHandler_wf, mergePDFsHandler_wf, splitTextHandler_wf,
    formatTextHandler_wf, compareTextsHandler_wf, convertDocxToPdf_wf,
    readFile_wf, fileTransformHandler_wf, convertTextEncodingHandler_wf⟩

/-- Claim C2, counterexample to the claim as stated: a `pdf_merger` call
whose argument bag lacks `inputPaths` does fail, but with the downstream
iteration error `inputPaths is not iterable` — the message does not name
the operation with "invalid arguments". -/
theorem C2_counterexample :
    (callTool sampleEnv "pdf_merger" (some [("outputDir", JsValue.jstr "/out")])).isError
        = true ∧
      containsSub "invalid arguments".data
        (callTool sampleEnv "pdf_merger"
          (some [("outputDir", JsValue.jstr "/out")])).text.data = false ∧
      containsSub "Invalid arguments".data
        (callTool sampleEnv "pdf_merger"
          (some [("outputDir", JsValue.jstr "/out")])).text.data = false := by
  decide

/-- Claim C2, corrected.  Only `document_reader` and `docx_to_pdf` run an
argument-shape predicate; their failures yield `Error: Invalid arguments
for <operation>`.  All other operations cast the argument bag without
validation, so a missing required field (here `pdf_merger` without
`inputPaths`) still fails, but with a downstream handler error that does
not contain "invalid arguments". -/
theorem C2_only_reader_and_docx_validate (args : ArgBag) :
    (∀ env : Env, isFileReaderArgs args = false →
      callTool env "document_reader" (some args) =
        ⟨"Error: Invalid arguments for document_reader", true⟩) ∧
    (∀ env : Env, isDocxToPdfArgs args = false →
      callTool env "docx_to_pdf" (some args) =
        ⟨"Error: Invalid arguments for docx_to_pdf", true⟩) ∧
    (∀ env : Env, getStrs args "inputPaths" = none →
      (callTool env "pdf_merger" (some args)).isError = true ∧
        containsSub "nvalid arguments".data
          (callTool env "pdf_merger" (some args)).text.data = false) := by
  refine ⟨?_, ?_, ?_⟩
  · intro env hv
    show dispatch env "document_reader" args = _
    unfold dispatch
    rw [if_pos rfl, hv]
    rfl
  · intro env hv
    show dispatch env "docx_to_pdf" args = _
    unfold dispatch
    rw [if_neg (by decide), if_pos rfl, hv]
    rfl
  · intro env hv
    have hd : callTool env "pdf_merger" (some args) =
        respond (mergePDFsHandler env (getStrs args "inputPaths")
          (getStr args "outputDir")).1 := by
      show dispatch env "pdf_merger" args = _
      unfold dispatch
      rw [if_neg (by decide), if_neg (by decide), if_pos rfl]
    rw [hd]
    unfold mergePDFsHandler
    rw [hv]
    rcases getStr args "outputDir" with _ | od
    · refine ⟨rfl, ?_⟩
      show containsSub "nvalid arguments".data
        (respond (mkErr pathTypeErrMsg)).text.data = false
      decide
    · refine ⟨rfl, ?_⟩
      show containsSub "nvalid arguments".data
        (respond (mkErr "inputPaths is not iterable")).text.data = false
      decide

/-- Claim C2, witness for the corrected theorem on the empty argument bag. -/
theorem C2_witness :
    callTool sampleEnv "document_reader" (some []) =
      ⟨"Error: Invalid arguments for document_reader", true⟩ ∧
      callTool sampleEnv "docx_to_pdf" (some []) =
        ⟨"Error: Invalid arguments for docx_to_pdf", true⟩ ∧
      (callTool sampleEnv "pdf_merger" (some [])).isError = true := by
  have h := C2_only_reader_and_docx_validate []
  exact ⟨h.1 sampleEnv (by decide), h.2.1 sampleEnv (by decide),
    (h.2.2 sampleEnv (by decide)).1⟩

end DocForge
